import Mathlib

/-!
A shallow embedding of genco's language plugin and symbol-resolution
subsystem: the Java backend (`src/lang/java/mod.rs`) and the Go backend
(`src/lang/go.rs`).  The generic token-stream machinery (the quasi-quoter
and the whitespace engine) lives outside the embedded sources and is
modelled from the spec where it is needed; every language-specific
definition below is translated from the Rust source.
-/

namespace Genco

/-!
### Order on strings and import keys

Rust compares `String`s bytewise lexicographically; under UTF-8 this agrees
with lexicographic comparison of the sequences of Unicode scalar values,
i.e. of `String.data`.
-/

def strLt (a b : String) : Prop := a.data < b.data

instance : DecidableRel strLt := fun a b => by
  unfold strLt
  infer_instance

/-- Import key of the Java backend: a `(package, simple name)` pair, ordered
first by package then by name, exactly as `BTreeSet<(Cons, Cons)>` orders
tuples. -/
abbrev JKey := String × String

def keyLt (a b : JKey) : Prop := strLt a.1 b.1 ∨ (a.1 = b.1 ∧ strLt a.2 b.2)

instance : DecidableRel keyLt := fun a b => by
  unfold keyLt
  infer_instance

/-- Ordered duplicate-free insertion into a strictly ascending list: the model
of `BTreeSet::insert` (a `BTreeSet` iterates in ascending order and collapses
duplicates). -/
def insertSorted {α : Type} [DecidableEq α] (lt : α → α → Prop) [DecidableRel lt] (k : α) : List α → List α
  | [] => [k]
  | a :: l =>
    if lt k a then k :: a :: l
    else if k = a then a :: l
    else a :: insertSorted lt k l

/-- Association-list model of `HashMap<String, String>`: only `get`,
`contains_key` and `insert` are used by the source. -/
def lookupA : List (String × String) → String → Option String
  | [], _ => none
  | (k, v) :: rest, key => if k = key then some v else lookupA rest key

def insertA (key value : String) : List (String × String) → List (String × String)
  | [] => [(key, value)]
  | (k, v) :: rest =>
    if k = key then (key, value) :: rest else (k, v) :: insertA key value rest

/-- Modelled from the spec: the generic whitespace engine (out of scope of the
embedded sources; `Tokens::push`, `line_spacing` and `line`) renders pushed
blocks as lines, separates consecutive non-empty blocks by exactly one blank
line, and omits an empty block together with its separator. -/
def joinSections : List (List String) → List String
  | [] => []
  | s :: rest =>
    let r := joinSections rest
    if s = [] then r else if r = [] then s else s ++ [""] ++ r

/-! Characters used by the string-quoting hooks, by code point. -/

def tabC : Char := Char.ofNat 9
def lfC : Char := Char.ofNat 10
def crC : Char := Char.ofNat 13
def belC : Char := Char.ofNat 7
def c14C : Char := Char.ofNat 20
def sqC : Char := Char.ofNat 39
def dqC : Char := Char.ofNat 34
def bsC : Char := Char.ofNat 92

namespace Java

/-!
### The Java backend (`src/lang/java/mod.rs`)

`JType` is the closed union behind `TypeBox` / `TypeEnum`: variants
`Primitive` (constructor `prim`, fields `primitive` and `boxed`), `Void`
(`void`), `Type` (`cls`, fields `package`, `name`, `path`, `arguments`),
`Optional` (`opt`, fields `value` and `field`) and `Local` (`loc`).
`JArgs` embeds `Vec<TypeBox>`.
-/

mutual

inductive JType : Type where
  | prim (primitive boxed : String)
  | void
  | cls (package name : String) (path : List String) (arguments : JArgs)
  | opt (value field : JType)
  | loc (name : String)
deriving DecidableEq

inductive JArgs : Type where
  | nil
  | cons (head : JType) (tail : JArgs)
deriving DecidableEq

end

def JArgs.toList : JArgs → List JType
  | .nil => []
  | .cons a rest => a :: rest.toList

mutual

/-- `TypeTrait::type_imports`, collecting the keys a variant inserts into the
`BTreeSet`, in insertion order.  `Type` first visits its generic arguments
(recursing only into arguments whose variant is `TypeEnum::Type`) and then
inserts its own `(package, name)`; `Optional` delegates to its value type;
`Primitive`, `Void` and `Local` insert nothing (java/mod.rs 38, 248-257,
381-384). -/
def type_imports : JType → List JKey
  | .cls package name _ args => argImports args ++ [(package, name)]
  | .opt value _ => type_imports value
  | _ => []

/-- The `for argument in &self.arguments` loop of `Type::type_imports`
(java/mod.rs 249-253): `if let TypeEnum::Type(ty) = argument.as_enum()`
recurses, every other variant is skipped. -/
def argImports : JArgs → List JKey
  | .nil => []
  | .cons a rest =>
    (match a with
     | .cls .. => type_imports a
     | _ => []) ++ argImports rest

end

/-- `java::Config`: the file package and the `imported` table
(`HashMap<String, String>` from simple name to owning package), modelled as
an association list (java/mod.rs 96-103). -/
structure Config where
  package : Option String
  imported : List (String × String)
deriving DecidableEq

/-- `Config::with_package` (java/mod.rs 107-112). -/
def Config.with_package (self : Config) (package : String) : Config :=
  { self with package := some package }

/-- The qualification test of `impl LangItem<Java> for Type::format`
(java/mod.rs 190): the package is written out if and only if it is not
`java.lang`, not the package registered in `imported` for this simple name,
and not the file's own package. -/
def qualified (config : Config) (package name : String) : Prop :=
  package ≠ "java.lang" ∧ lookupA config.imported name ≠ some package ∧ config.package ≠ some package

instance (config : Config) (package name : String) : Decidable (qualified config package name) := by
  unfold qualified
  infer_instance

/-- The trailing `.`-separated nested path written after the simple name
(java/mod.rs 199-204). -/
def pathText (path : List String) : String :=
  path.foldl (fun acc seg => acc ++ "." ++ seg) ""

mutual

/-- `LangItem<Java>::format` for every variant (java/mod.rs 183-229, 273-281,
304-312, 345-353, 398-406).  `Primitive` and `Void` write their boxed spelling
when `level > 0`; `Type` writes the package qualifier when `qualified` holds,
then name, nested path and the generic argument list, each argument formatted
at `level + 1`; `Optional` formats its `field` type; `Local` writes its bare
name. -/
def format (config : Config) : JType → Nat → String
  | .prim primitive boxed, level => if level > 0 then boxed else primitive
  | .void, level => if level > 0 then "Void" else "void"
  | .loc name, _ => name
  | .opt _ field, level => format config field level
  | .cls package name path args, level =>
    (if qualified config package name then package ++ "." else "")
      ++ name ++ pathText path
      ++ (match args with
          | .nil => ""
          | .cons a rest => "<" ++ formatArgs config a rest (level + 1) ++ ">")
termination_by t _ => sizeOf t

/-- The peekable loop over generic arguments (java/mod.rs 210-218): each
argument is formatted, with `", "` written between consecutive arguments. -/
def formatArgs (config : Config) : JType → JArgs → Nat → String
  | a, .nil, level => format config a level
  | a, .cons b rest, level => format config a level ++ ", " ++ formatArgs config b rest level
termination_by a args _ => sizeOf a + sizeOf args

end

/-- The `<`-delimited generic-argument list of `Type::format`
(java/mod.rs 207-221), written at the given (already incremented) level;
empty when there are no arguments. -/
def argsText (config : Config) (args : JArgs) (level : Nat) : String :=
  match args with
  | .nil => ""
  | .cons a rest => "<" ++ formatArgs config a rest level ++ ">"

/-- One element of a token stream: a literal text run or a Java item.
Modelled from the spec: the token stream (owned by the out-of-scope
quasi-quoter) interleaves literal fragments with language items. -/
inductive Item where
  | lit (text : String)
  | ty (t : JType)

/-- A token stream, as the list of its lines, each line a list of items.
Modelled from the spec: the stream offers iteration over embedded items in
document order (`walk_custom`) and the literal runs reproduced verbatim. -/
abbrev Stream := List (List Item)

/-- `tokens.walk_custom()` filtered through `as_import` (java/mod.rs 417-421):
every `Type`, `Optional` and `Local` in document order (`Primitive` and `Void`
return no import and are skipped, but their `type_imports` is empty anyway, so
the collected keys agree). -/
def customs (s : Stream) : List JType :=
  s.flatMap fun line =>
    line.filterMap fun it =>
      match it with
      | .ty t => some t
      | .lit _ => none

/-- The `BTreeSet` of import keys collected from a list of items
(java/mod.rs 413-421). -/
def modulesOf (ts : List JType) : List JKey :=
  ts.foldl (fun acc t => (type_imports t).foldl (fun a k => insertSorted keyLt k a) acc) []

/-- The `for (package, name) in modules` loop of `Java::imports`
(java/mod.rs 429-446): skip a key whose simple name is already in
`imported`, a `java.lang` key, and a key of the file's own package;
otherwise emit the key and register `name -> package` in `imported`.
Returns the emitted keys in order together with the final configuration. -/
def importsLoop (config : Config) : List JKey → List JKey × Config
  | [] => ([], config)
  | (package, name) :: rest =>
    if (lookupA config.imported name).isSome then importsLoop config rest
    else if package = "java.lang" then importsLoop config rest
    else if config.package = some package then importsLoop config rest
    else
      let config' : Config := { config with imported := insertA name package config.imported }
      let r := importsLoop config' rest
      ((package, name) :: r.1, r.2)

/-- `Java::imports` (java/mod.rs 412-449): `None` when no key was collected,
otherwise the emitted import keys and the updated configuration. -/
def imports (s : Stream) (config : Config) : Option (List JKey) × Config :=
  let modules := modulesOf (customs s)
  if modules = [] then (none, config)
  else
    let r := importsLoop config modules
    (some r.1, r.2)

/-- The text of one emitted import statement:
`quote!(import #(package)#(SEP)#(name);)` (java/mod.rs 442). -/
def importLine (k : JKey) : String :=
  "import " ++ k.1 ++ "." ++ k.2 ++ ";"

/-- One rendered line of the body: literal runs verbatim, items formatted at
level `0` with the current configuration. -/
def renderLine (config : Config) (line : List Item) : String :=
  line.foldl
    (fun acc it =>
      acc ++
        (match it with
         | .lit text => text
         | .ty t => format config t 0))
    ""

def body (config : Config) (s : Stream) : List String :=
  s.map (renderLine config)

/-- The `package <p>;` header section (java/mod.rs 488-491). -/
def packageSection (config : Config) : List String :=
  match config.package with
  | some p => ["package " ++ p ++ ";"]
  | none => []

/-- `Java::write_file` (java/mod.rs 480-500): package section, import section
and body, each pushed with `line_spacing`, then rendered; the body is
formatted with the configuration as mutated by the import pass. -/
def write_file (s : Stream) (config : Config) : List String :=
  let r := imports s config
  joinSections [packageSection config, (r.1.getD []).map importLine, body r.2 s]

/-- `Java::quote_string`, per character (java/mod.rs 456-478): the match arms
in source order; every other character is written unchanged. -/
def escapeChar (c : Char) : List Char :=
  if c = tabC then [bsC, 't']
  else if c = belC then [bsC, 'b']
  else if c = lfC then [bsC, 'n']
  else if c = crC then [bsC, 'r']
  else if c = c14C then [bsC, 'f']
  else if c = sqC then [bsC, sqC]
  else if c = dqC then [bsC, dqC]
  else if c = bsC then [bsC, bsC]
  else [c]

/-- `Java::quote_string` over the scalar values of the input: a double quote,
each character escaped, a closing double quote. -/
def quote_string (input : List Char) : List Char :=
  (dqC :: input.flatMap escapeChar) ++ [dqC]

/-- `Type::path` (java/mod.rs 141-151), defined on the payload of the `cls`
variant (the Rust `Type` struct): pushes the part onto the nested path and
discards the arguments. -/
def typePath (package name : String) (path : List String) (arguments : JArgs) (part : String) : JType :=
  let path := path ++ [part]
  let _ := arguments
  JType.cls package name path .nil

/-- `TypeTrait::name` (java/mod.rs 25, 236-238, 268-270, 315-317, 340-342,
369-371). -/
def nameOf : JType → String
  | .prim primitive _ => primitive
  | .void => "void"
  | .cls _ name _ _ => name
  | .opt value _ => nameOf value
  | .loc name => name

/-- `TypeTrait::package` (java/mod.rs 28-30, 240-242, 323-325, 373-375). -/
def packageOf : JType → Option String
  | .prim _ _ => some "java.lang"
  | .cls package _ _ _ => some package
  | .opt value _ => packageOf value
  | _ => none

/-- `TypeTrait::arguments` (java/mod.rs 33-35, 244-246, 377-379). -/
def argumentsOf : JType → Option JArgs
  | .cls _ _ _ arguments => some arguments
  | .opt value _ => argumentsOf value
  | _ => none

/-- The `path` field of the `Type` struct (java/mod.rs 132). -/
def pathOf : JType → List String
  | .cls _ _ path _ => path
  | _ => []

end Java

namespace Go

/-!
### The Go backend (`src/lang/go.rs`)

`Any` is the closed union of Go type variants wired up by
`impl_dynamic_types!`: `Type` (constructor `typ`, fields `module` and
`name`), `Map` (`map`), `Array` (`array`) and `Interface` (`interfaceTy`).
-/

inductive Any : Type where
  | typ (module : Option String) (name : String)
  | map (key value : Any)
  | array (inner : Any)
  | interfaceTy
deriving DecidableEq

/-- `TypeTrait::type_imports` for every variant (go.rs 55-87): a `Type`
inserts its module when present, `Map` visits key then value, `Array` its
inner type, `Interface` nothing. -/
def type_imports : Any → List String
  | .typ (some module) _ => [module]
  | .typ none _ => []
  | .map key value => type_imports key ++ type_imports value
  | .array inner => type_imports inner
  | .interfaceTy => []

/-- `self.module.as_ref().and_then(|m| m.split("/").last())` (go.rs 106):
the last `/`-separated segment of a module path. -/
def lastSegment (m : String) : String :=
  String.mk ((m.data.splitOn '/').getLastD [])

/-- `LangItem<Go>::format` for every variant (go.rs 103-182). -/
def format : Any → String
  | .typ (some module) name => lastSegment module ++ "." ++ name
  | .typ none name => name
  | .map key value => "map[" ++ format key ++ "]" ++ format value
  | .array inner => "[]" ++ format inner
  | .interfaceTy => "interface\x7b\x7d"

/-- `go::Config` (go.rs 189-202). -/
structure Config where
  package : Option String
deriving DecidableEq

/-- `Config::with_package` (go.rs 196-201). -/
def Config.with_package (self : Config) (package : String) : Config :=
  { self with package := some package }

/-- One element of a Go token stream; see `Java.Item`. -/
inductive Item where
  | lit (text : String)
  | ty (t : Any)

/-- A Go token stream as its list of lines; see `Java.Stream`. -/
abbrev Stream := List (List Item)

/-- `tokens.walk_imports()` (go.rs 213-215): every embedded item in document
order (each Go variant answers `as_import` with itself). -/
def customs (s : Stream) : List Any :=
  s.flatMap fun line =>
    line.filterMap fun it =>
      match it with
      | .ty t => some t
      | .lit _ => none

/-- The `BTreeSet<ItemStr>` of modules collected by `Go::imports`
(go.rs 208-219). -/
def modulesOf (ts : List Any) : List String :=
  ts.foldl (fun acc t => (type_imports t).foldl (fun a m => insertSorted strLt m a) acc) []

/-- `Go::quote_string`, per character (go.rs 235-252): the match arms in
source order; every other character is written unchanged. -/
def escapeChar (c : Char) : List Char :=
  if c = tabC then [bsC, 't']
  else if c = lfC then [bsC, 'n']
  else if c = crC then [bsC, 'r']
  else if c = sqC then [bsC, sqC]
  else if c = dqC then [bsC, dqC]
  else if c = bsC then [bsC, bsC]
  else [c]

/-- `Go::quote_string` over the scalar values of the input. -/
def quote_string (input : List Char) : List Char :=
  (dqC :: input.flatMap escapeChar) ++ [dqC]

/-- The text of one emitted import statement:
`quote_in!(*out => import #(module.quoted()))` (go.rs 222) — `quoted()`
renders the module through `Go::quote_string`, so the module text is escaped
between the double quotes. -/
def importLine (m : String) : String :=
  "import " ++ String.mk (quote_string m.data)

/-- The import block of `Go::imports` (go.rs 208-228): one line per collected
module, in the set's ascending order. -/
def imports (s : Stream) : List String :=
  (modulesOf (customs s)).map importLine

/-- One rendered line of the body; the Go `format` reads no configuration. -/
def renderLine (line : List Item) : String :=
  line.foldl
    (fun acc it =>
      acc ++
        (match it with
         | .lit text => text
         | .ty t => format t))
    ""

def body (s : Stream) : List String :=
  s.map renderLine

/-- The `package <p>` header section (go.rs 261-264). -/
def packageSection (config : Config) : List String :=
  match config.package with
  | some p => ["package " ++ p]
  | none => []

/-- `Go::format_file` (go.rs 254-271): the header (package line and import
block, each followed by a blank line when non-empty) and then the body. -/
def format_file (s : Stream) (config : Config) : List String :=
  joinSections [packageSection config, imports s, body s]

/-- `go::imported` (go.rs 299-308). -/
def imported (module name : String) : Any :=
  Any.typ (some module) name

/-- `go::local` (go.rs 323-331). -/
def localTy (name : String) : Any :=
  Any.typ none name

end Go

/-- Blank-line discipline used by the file-assembly claims: no two consecutive
lines of the rendered output are both blank. -/
def noTwoBlank (l : List String) : Prop :=
  l.Chain' (fun a b => a ≠ "" ∨ b ≠ "")

/-- Modelled from the spec (the refinement side of `collect_import_keys`):
a Go symbol reference contributes its own key and every composite recursively
contributes its children's keys. -/
def specGoKeys : Go.Any → List String
  | .typ (some module) _ => [module]
  | .typ none _ => []
  | .map key value => specGoKeys key ++ specGoKeys value
  | .array inner => specGoKeys inner
  | .interfaceTy => []

mutual

/-- Modelled from the spec (the refinement side of `collect_import_keys`, the
reading asserted of the Java collector): a `Type` contributes its own
`(package, name)` and, recursively, the keys of all of its generic arguments
of whatever variant; `Optional` delegates to its wrapped value type. -/
def specJavaKeys : Java.JType → List JKey
  | .cls package name _ args => (package, name) :: specJavaArgs args
  | .opt value _ => specJavaKeys value
  | _ => []

/-- Modelled from the spec: keys of every generic argument, of whatever
variant. -/
def specJavaArgs : Java.JArgs → List JKey
  | .nil => []
  | .cons a rest => specJavaKeys a ++ specJavaArgs rest

end

/-! ### Facts about the key orders -/

theorem strLt_trans {a b c : String} (h₁ : strLt a b) (h₂ : strLt b c) : strLt a c :=
  lt_trans h₁ h₂

theorem strLt_asym {a b : String} (h : strLt a b) : ¬ strLt b a :=
  lt_asymm h

theorem strLt_ne {a b : String} (h : strLt a b) : a ≠ b := by
  intro he
  subst he
  exact lt_irrefl _ h

theorem strLt_tri (a b : String) : strLt a b ∨ a = b ∨ strLt b a := by
  unfold strLt
  rcases lt_trichotomy a.data b.data with h | h | h
  · exact Or.inl h
  · refine Or.inr (Or.inl ?_)
    cases a
    cases b
    simp_all
  · exact Or.inr (Or.inr h)

theorem keyLt_trans {a b c : JKey} (h₁ : keyLt a b) (h₂ : keyLt b c) : keyLt a c := by
  rcases h₁ with h₁ | ⟨e₁, h₁⟩ <;> rcases h₂ with h₂ | ⟨e₂, h₂⟩
  · exact Or.inl (strLt_trans h₁ h₂)
  · exact Or.inl (e₂ ▸ h₁)
  · exact Or.inl (e₁ ▸ h₂)
  · exact Or.inr ⟨e₁.trans e₂, strLt_trans h₁ h₂⟩

theorem keyLt_asym {a b : JKey} (h : keyLt a b) : ¬ keyLt b a := by
  rcases h with h | ⟨e, h⟩ <;> rintro (h' | ⟨e', h'⟩)
  · exact strLt_asym h h'
  · exact strLt_ne h e'.symm
  · exact strLt_ne h' e.symm
  · exact strLt_asym h h'

theorem keyLt_tri (a b : JKey) : keyLt a b ∨ a = b ∨ keyLt b a := by
  obtain ⟨a₁, a₂⟩ := a
  obtain ⟨b₁, b₂⟩ := b
  rcases strLt_tri a₁ b₁ with h | h | h
  · exact Or.inl (Or.inl h)
  · subst h
    rcases strLt_tri a₂ b₂ with h₂ | h₂ | h₂
    · exact Or.inl (Or.inr ⟨rfl, h₂⟩)
    · subst h₂
      exact Or.inr (Or.inl rfl)
    · exact Or.inr (Or.inr (Or.inr ⟨rfl, h₂⟩))
  · exact Or.inr (Or.inr (Or.inl h))

/-! ### Facts about `insertSorted` and the collection folds -/

theorem mem_insertSorted {α : Type} [DecidableEq α] (lt : α → α → Prop) [DecidableRel lt]
    (k : α) (l : List α) (x : α) : x ∈ insertSorted lt k l ↔ x = k ∨ x ∈ l := by
  induction l with
  | nil => simp [insertSorted]
  | cons a l ih =>
    simp only [insertSorted]
    split
    · simp
    · split
      · subst ‹k = a›
        simp [or_comm, or_assoc]
      · simp [ih]
        tauto

theorem pairwise_insertSorted {α : Type} [DecidableEq α] (lt : α → α → Prop) [DecidableRel lt]
    (trans : ∀ a b c, lt a b → lt b c → lt a c)
    (tri : ∀ a b, lt a b ∨ a = b ∨ lt b a)
    (k : α) (l : List α) (h : l.Pairwise lt) : (insertSorted lt k l).Pairwise lt := by
  induction l with
  | nil => simp [insertSorted]
  | cons a l ih =>
    rw [List.pairwise_cons] at h
    obtain ⟨ha, hl⟩ := h
    simp only [insertSorted]
    split
    · rename_i hka
      refine List.pairwise_cons.mpr ⟨?_, List.pairwise_cons.mpr ⟨ha, hl⟩⟩
      intro x hx
      rcases List.mem_cons.mp hx with rfl | hx
      · exact hka
      · exact trans _ _ _ hka (ha x hx)
    · split
      · exact List.pairwise_cons.mpr ⟨ha, hl⟩
      · rename_i hnlt hne
        refine List.pairwise_cons.mpr ⟨?_, ih hl⟩
        intro x hx
        rcases (mem_insertSorted lt k l x).mp hx with rfl | hx
        · rcases tri x a with h' | h' | h'
          · exact absurd h' hnlt
          · exact absurd h' hne
          · exact h'
        · exact ha x hx

theorem sorted_eq_of_mem_iff {α : Type} (lt : α → α → Prop)
    (asym : ∀ a b, lt a b → ¬ lt b a) :
    ∀ (l₁ l₂ : List α), l₁.Pairwise lt → l₂.Pairwise lt →
      (∀ x, x ∈ l₁ ↔ x ∈ l₂) → l₁ = l₂ := by
  intro l₁
  induction l₁ with
  | nil =>
    intro l₂ _ _ hm
    cases l₂ with
    | nil => rfl
    | cons b l₂ => exact absurd ((hm b).mpr (List.mem_cons_self b l₂)) (List.not_mem_nil b)
  | cons a l₁ ih =>
    intro l₂ h₁ h₂ hm
    cases l₂ with
    | nil => exact absurd ((hm a).mp (List.mem_cons_self a l₁)) (List.not_mem_nil a)
    | cons b l₂ =>
      rw [List.pairwise_cons] at h₁ h₂
      have hab : a = b := by
        rcases List.mem_cons.mp ((hm a).mp (List.mem_cons_self a l₁)) with h | h
        · exact h
        · rcases List.mem_cons.mp ((hm b).mpr (List.mem_cons_self b l₂)) with h' | h'
          · exact h'.symm
          · exact absurd (h₂.1 a h) (asym a b (h₁.1 b h'))
      subst hab
      have htails : ∀ x, x ∈ l₁ ↔ x ∈ l₂ := by
        intro x
        constructor
        · intro hx
          rcases List.mem_cons.mp ((hm x).mp (List.mem_cons.mpr (Or.inr hx))) with rfl | h
          · exact absurd (h₁.1 x hx) (asym x x (h₁.1 x hx))
          · exact h
        · intro hx
          rcases List.mem_cons.mp ((hm x).mpr (List.mem_cons.mpr (Or.inr hx))) with rfl | h
          · exact absurd (h₂.1 x hx) (asym x x (h₂.1 x hx))
          · exact h
      exact congrArg (a :: ·) (ih l₂ h₁.2 h₂.2 htails)

theorem mem_foldl_insert {α : Type} [DecidableEq α] (lt : α → α → Prop) [DecidableRel lt]
    (ks : List α) (acc : List α) (x : α) :
    x ∈ ks.foldl (fun a k => insertSorted lt k a) acc ↔ x ∈ ks ∨ x ∈ acc := by
  induction ks generalizing acc with
  | nil => simp
  | cons k ks ih =>
    simp only [List.foldl_cons, ih, mem_insertSorted, List.mem_cons]
    tauto

theorem pairwise_foldl_insert {α : Type} [DecidableEq α] (lt : α → α → Prop) [DecidableRel lt]
    (trans : ∀ a b c, lt a b → lt b c → lt a c)
    (tri : ∀ a b, lt a b ∨ a = b ∨ lt b a)
    (ks : List α) (acc : List α) (h : acc.Pairwise lt) :
    (ks.foldl (fun a k => insertSorted lt k a) acc).Pairwise lt := by
  induction ks generalizing acc with
  | nil => exact h
  | cons k ks ih => exact ih _ (pairwise_insertSorted lt trans tri k acc h)

theorem mem_foldl_insert_flat {β α : Type} [DecidableEq α] (lt : α → α → Prop) [DecidableRel lt]
    (f : β → List α) (ts : List β) (acc : List α) (x : α) :
    x ∈ ts.foldl (fun a t => (f t).foldl (fun a k => insertSorted lt k a) a) acc
      ↔ (∃ t ∈ ts, x ∈ f t) ∨ x ∈ acc := by
  induction ts generalizing acc with
  | nil => simp
  | cons t ts ih =>
    simp only [List.foldl_cons, ih, mem_foldl_insert, List.mem_cons]
    constructor
    · rintro (⟨u, hu, hx⟩ | hx | hx)
      · exact Or.inl ⟨u, Or.inr hu, hx⟩
      · exact Or.inl ⟨t, Or.inl rfl, hx⟩
      · exact Or.inr hx
    · rintro (⟨u, rfl | hu, hx⟩ | hx)
      · exact Or.inr (Or.inl hx)
      · exact Or.inl ⟨u, hu, hx⟩
      · exact Or.inr (Or.inr hx)

theorem pairwise_foldl_insert_flat {β α : Type} [DecidableEq α] (lt : α → α → Prop) [DecidableRel lt]
    (trans : ∀ a b c, lt a b → lt b c → lt a c)
    (tri : ∀ a b, lt a b ∨ a = b ∨ lt b a)
    (f : β → List α) (ts : List β) (acc : List α) (h : acc.Pairwise lt) :
    (ts.foldl (fun a t => (f t).foldl (fun a k => insertSorted lt k a) a) acc).Pairwise lt := by
  induction ts generalizing acc with
  | nil => exact h
  | cons t ts ih => exact ih _ (pairwise_foldl_insert lt trans tri _ _ h)

theorem Java.mem_modulesOf_java (ts : List Java.JType) (k : JKey) :
    k ∈ Java.modulesOf ts ↔ ∃ t ∈ ts, k ∈ Java.type_imports t := by
  unfold Java.modulesOf
  rw [mem_foldl_insert_flat]
  simp

theorem Java.pairwise_modulesOf_java (ts : List Java.JType) :
    (Java.modulesOf ts).Pairwise keyLt :=
  pairwise_foldl_insert_flat keyLt (fun _ _ _ => keyLt_trans) keyLt_tri _ ts [] (List.Pairwise.nil)

theorem Go.mem_modulesOf_go (ts : List Go.Any) (m : String) :
    m ∈ Go.modulesOf ts ↔ ∃ t ∈ ts, m ∈ Go.type_imports t := by
  unfold Go.modulesOf
  rw [mem_foldl_insert_flat]
  simp

theorem Go.pairwise_modulesOf_go (ts : List Go.Any) :
    (Go.modulesOf ts).Pairwise strLt :=
  pairwise_foldl_insert_flat strLt (fun _ _ _ => strLt_trans) strLt_tri _ ts [] (List.Pairwise.nil)

/-! ### Facts about the association list and the Java import loop -/

theorem lookupA_insertA : ∀ (l : List (String × String)) (key value q : String),
    lookupA (insertA key value l) q = if key = q then some value else lookupA l q
  | [], key, value, q => by simp [insertA, lookupA]
  | (k, v) :: rest, key, value, q => by
    simp only [insertA]
    by_cases hk : k = key
    · subst hk
      simp only [if_pos rfl, lookupA]
      by_cases hq : k = q
      · subst hq
        simp
      · simp [hq]
    · rw [if_neg hk]
      simp only [lookupA, lookupA_insertA rest key value q]
      split_ifs <;> simp_all

theorem Java.importsLoop_package : ∀ (keys : List JKey) (config : Java.Config),
    (Java.importsLoop config keys).2.package = config.package
  | [], _ => rfl
  | (package, name) :: rest, config => by
    simp only [Java.importsLoop]
    split_ifs with h1 h2 h3
    · exact Java.importsLoop_package rest config
    · exact Java.importsLoop_package rest config
    · exact Java.importsLoop_package rest config
    · exact Java.importsLoop_package rest _

theorem Java.importsLoop_lookup_mono : ∀ (keys : List JKey) (config : Java.Config) (nm pk : String),
    lookupA config.imported nm = some pk →
    lookupA (Java.importsLoop config keys).2.imported nm = some pk
  | [], _, _, _, h => h
  | (package, name) :: rest, config, nm, pk, h => by
    simp only [Java.importsLoop]
    split_ifs with h1 h2 h3
    · exact Java.importsLoop_lookup_mono rest config nm pk h
    · exact Java.importsLoop_lookup_mono rest config nm pk h
    · exact Java.importsLoop_lookup_mono rest config nm pk h
    · apply Java.importsLoop_lookup_mono rest _ nm pk
      show lookupA (insertA name package config.imported) nm = some pk
      rw [lookupA_insertA]
      by_cases hnm : name = nm
      · subst hnm
        simp [h] at h1
      · rw [if_neg hnm]
        exact h

theorem Java.importsLoop_sublist : ∀ (keys : List JKey) (config : Java.Config),
    (Java.importsLoop config keys).1.Sublist keys
  | [], _ => List.Sublist.slnil
  | (package, name) :: rest, config => by
    simp only [Java.importsLoop]
    split_ifs with h1 h2 h3
    · exact (Java.importsLoop_sublist rest config).cons _
    · exact (Java.importsLoop_sublist rest config).cons _
    · exact (Java.importsLoop_sublist rest config).cons _
    · exact (Java.importsLoop_sublist rest _).cons₂ _

theorem Java.importsLoop_not_mem : ∀ (keys : List JKey) (config : Java.Config) (p n : String),
    (p = "java.lang" ∨ config.package = some p) →
    (p, n) ∉ (Java.importsLoop config keys).1
  | [], _, _, _, _ => List.not_mem_nil _
  | (package, name) :: rest, config, p, n, h => by
    simp only [Java.importsLoop]
    split_ifs with h1 h2 h3
    · exact Java.importsLoop_not_mem rest config p n h
    · exact Java.importsLoop_not_mem rest config p n h
    · exact Java.importsLoop_not_mem rest config p n h
    · intro hmem
      rcases List.mem_cons.mp hmem with he | hmem'
      · have hp : p = package := congrArg Prod.fst he
        rcases h with h | h
        · exact h2 (hp ▸ h)
        · exact h3 (hp ▸ h)
      · exact Java.importsLoop_not_mem rest
          { config with imported := insertA name package config.imported } p n h hmem'

/-! ### Facts about `joinSections` -/

theorem joinSections_single : ∀ (c : List String), joinSections [c] = c := by
  intro c
  cases c with
  | nil => rfl
  | cons a l => rfl

theorem joinSections_cons (s : List String) (rest : List (List String)) :
    joinSections (s :: rest)
      = if s = [] then joinSections rest
        else if joinSections rest = [] then s
        else s ++ [""] ++ joinSections rest := rfl

theorem noTwoBlank_glue (xs ys : List String)
    (hx : ∀ x ∈ xs, x ≠ "") (hy0 : ys.head? ≠ some "") (hy : noTwoBlank ys) :
    noTwoBlank (xs ++ [""] ++ ys) := by
  unfold noTwoBlank
  rw [List.append_assoc, List.chain'_append]
  refine ⟨?_, ?_, ?_⟩
  · exact List.Pairwise.chain' (List.pairwise_of_forall_mem_list fun a ha b _ => Or.inl (hx a ha))
  · rw [List.chain'_append]
    refine ⟨List.chain'_singleton _, hy, ?_⟩
    intro x hx' y hy'
    refine Or.inr ?_
    intro he
    subst he
    exact hy0 (by simpa using hy')
  · intro x hx' y _
    obtain ⟨hne, rfl⟩ := List.mem_getLast?_eq_getLast hx'
    exact Or.inl (hx _ (List.getLast_mem hne))

theorem head_ne_blank_of_all_ne (l : List String) (h : ∀ x ∈ l, x ≠ "") :
    l.head? ≠ some "" := by
  cases l with
  | nil => simp
  | cons a t => simpa using h a (List.mem_cons_self a t)

theorem noTwoBlank_of_all_ne (l : List String) (h : ∀ x ∈ l, x ≠ "") : noTwoBlank l :=
  List.Pairwise.chain' (List.pairwise_of_forall_mem_list fun a ha _ _ => Or.inl (h a ha))

theorem head?_append_left {α : Type} (xs ys : List α) (h : xs ≠ []) :
    (xs ++ ys).head? = xs.head? := by
  cases xs with
  | nil => exact absurd rfl h
  | cons a t => rfl

/-- The three-section shape every `write_file` / `format_file` takes: head and
blank-line discipline, and the explicit layout when no section is empty. -/
theorem joinSections3_props (a b c : List String)
    (ha : ∀ x ∈ a, x ≠ "") (hb : ∀ x ∈ b, x ≠ "")
    (hc0 : c.head? ≠ some "") (hc : noTwoBlank c) :
    (joinSections [a, b, c]).head? ≠ some ""
    ∧ noTwoBlank (joinSections [a, b, c])
    ∧ (a ≠ [] → b ≠ [] → c ≠ [] →
        joinSections [a, b, c] = a ++ [""] ++ b ++ [""] ++ c) := by
  have hbc : (joinSections [b, c]).head? ≠ some ""
      ∧ noTwoBlank (joinSections [b, c])
      ∧ (b ≠ [] → c ≠ [] → joinSections [b, c] = b ++ [""] ++ c) := by
    by_cases hbe : b = []
    · subst hbe
      rw [joinSections_cons, if_pos rfl, joinSections_single]
      exact ⟨hc0, hc, fun h _ => absurd rfl h⟩
    · by_cases hce : c = []
      · subst hce
        rw [joinSections_cons, if_neg hbe, joinSections_single, if_pos rfl]
        exact ⟨head_ne_blank_of_all_ne b hb, noTwoBlank_of_all_ne b hb,
          fun _ h => absurd rfl h⟩
      · rw [joinSections_cons, if_neg hbe, joinSections_single, if_neg hce]
        refine ⟨?_, noTwoBlank_glue b c hb hc0 hc, fun _ _ => rfl⟩
        rw [List.append_assoc, head?_append_left b _ hbe]
        exact head_ne_blank_of_all_ne b hb
  by_cases hae : a = []
  · subst hae
    have hjs : joinSections [([] : List String), b, c] = joinSections [b, c] := by
      rw [joinSections_cons, if_pos rfl]
    rw [hjs]
    exact ⟨hbc.1, hbc.2.1, fun h _ _ => absurd rfl h⟩
  · by_cases hje : joinSections [b, c] = []
    · have hjs : joinSections [a, b, c] = a := by
        rw [joinSections_cons, if_neg hae, hje, if_pos rfl]
      rw [hjs]
      refine ⟨head_ne_blank_of_all_ne a ha, noTwoBlank_of_all_ne a ha, ?_⟩
      intro _ hbne hcne
      rw [hbc.2.2 hbne hcne] at hje
      exact absurd hje (by simp)
    · have hjs : joinSections [a, b, c] = a ++ [""] ++ joinSections [b, c] := by
        rw [joinSections_cons, if_neg hae, if_neg hje]
      rw [hjs]
      refine ⟨?_, noTwoBlank_glue a _ ha hbc.1 hbc.2.1, ?_⟩
      · rw [List.append_assoc, head?_append_left a _ hae]
        exact head_ne_blank_of_all_ne a ha
      · intro _ hbne hcne
        rw [hbc.2.2 hbne hcne]
        simp [List.append_assoc]

theorem str_ne_empty_of_length_pos {s : String} (h : 0 < s.length) : s ≠ "" := by
  intro he
  rw [he] at h
  simp at h

theorem Java.packageSection_all_ne_java (config : Java.Config) :
    ∀ x ∈ Java.packageSection config, x ≠ "" := by
  unfold Java.packageSection
  split
  · intro x hx
    rcases List.mem_singleton.mp hx with rfl
    apply str_ne_empty_of_length_pos
    simp [String.length_append]
    exact Or.inr (by decide)
  · simp

theorem Java.importLine_ne_java (k : JKey) : Java.importLine k ≠ "" := by
  apply str_ne_empty_of_length_pos
  simp [Java.importLine, String.length_append]
  exact Or.inr (by decide)

theorem Go.packageSection_all_ne_go (config : Go.Config) :
    ∀ x ∈ Go.packageSection config, x ≠ "" := by
  unfold Go.packageSection
  split
  · intro x hx
    rcases List.mem_singleton.mp hx with rfl
    apply str_ne_empty_of_length_pos
    simp [String.length_append]
    exact Or.inl (by decide)
  · simp

theorem Go.importLine_ne_go (m : String) : Go.importLine m ≠ "" := by
  apply str_ne_empty_of_length_pos
  simp [Go.importLine, String.length_append]
  exact Or.inl (by decide)

theorem str_eq_of_data_eq {a b : String} (h : a.data = b.data) : a = b := by
  cases a
  cases b
  exact congrArg String.mk h

theorem Go.escape_flatMap_self : ∀ (l : List Char), (∀ c ∈ l, Go.escapeChar c = [c]) →
    l.flatMap Go.escapeChar = l
  | [], _ => rfl
  | c :: rest, h => by
    simp only [List.flatMap_cons, h c (List.mem_cons_self c rest),
      Go.escape_flatMap_self rest (fun x hx => h x (List.mem_cons.mpr (Or.inr hx))),
      List.singleton_append]

/-! ### Shapes of `format` and `imports` -/

theorem Java.format_cls (config : Java.Config) (pkg n : String) (path : List String)
    (args : Java.JArgs) (level : Nat) :
    Java.format config (.cls pkg n path args) level
      = (if Java.qualified config pkg n then pkg ++ "." else "")
          ++ n ++ Java.pathText path ++ Java.argsText config args (level + 1) := by
  cases args <;> simp [Java.format, Java.argsText]

theorem Java.imports_package (s : Java.Stream) (config : Java.Config) :
    (Java.imports s config).2.package = config.package := by
  simp only [Java.imports]
  split
  · rfl
  · exact Java.importsLoop_package _ _

theorem Java.mem_argImports (k : JKey) : ∀ (args : Java.JArgs) (pkg2 n2 : String)
    (path2 : List String) (args2 : Java.JArgs),
    Java.JType.cls pkg2 n2 path2 args2 ∈ args.toList →
    k ∈ Java.type_imports (.cls pkg2 n2 path2 args2) →
    k ∈ Java.argImports args
  | .nil, _, _, _, _, hmem, _ => by simp [Java.JArgs.toList] at hmem
  | .cons a rest, pkg2, n2, path2, args2, hmem, hk => by
    simp only [Java.JArgs.toList, List.mem_cons] at hmem
    simp only [Java.argImports, List.mem_append]
    rcases hmem with he | hmem
    · subst he
      exact Or.inl hk
    · exact Or.inr (Java.mem_argImports k rest pkg2 n2 path2 args2 hmem hk)

theorem specGoKeys_eq : ∀ g : Go.Any, specGoKeys g = Go.type_imports g
  | .typ (some _) _ => rfl
  | .typ none _ => rfl
  | .map k v => by
    simp only [specGoKeys, Go.type_imports, specGoKeys_eq k, specGoKeys_eq v]
  | .array i => by
    simp only [specGoKeys, Go.type_imports, specGoKeys_eq i]
  | .interfaceTy => rfl

/-! ### The claims -/

/-- C10: `Type::path` returns a type with the same package and name, the old
nested path with the new part appended at the end, and an empty
generic-argument list. -/
theorem c10_type_path (package name : String) (path : List String)
    (arguments : Java.JArgs) (part : String) :
    Java.packageOf (Java.typePath package name path arguments part) = some package
    ∧ Java.nameOf (Java.typePath package name path arguments part) = name
    ∧ Java.pathOf (Java.typePath package name path arguments part) = path ++ [part]
    ∧ Java.argumentsOf (Java.typePath package name path arguments part) = some Java.JArgs.nil :=
  ⟨rfl, rfl, rfl, rfl⟩

/-- C9: Go use-site rendering — an imported type renders as the last
`/`-separated segment of its module, a dot and the name, and contributes
exactly one import line, `import ` followed by the module rendered through
`Go::quote_string` (literally `import "<module>"` whenever no character of
the module needs escaping); a local type renders as the bare name with
no import line; the stream referencing `go::imported("foo", "Debug")` renders
as `import "foo"`, a blank line, then `foo.Debug`. -/
theorem c9_go_use_site (m n p : String) :
    Go.format (Go.imported m n) = Go.lastSegment m ++ "." ++ n
    ∧ Go.format (Go.localTy p) = p
    ∧ Go.imports [[Go.Item.ty (Go.imported m n)]] = [Go.importLine m]
    ∧ ((∀ c ∈ m.data, Go.escapeChar c = [c]) →
        Go.imports [[Go.Item.ty (Go.imported m n)]] = ["import \"" ++ m ++ "\""])
    ∧ Go.imports [[Go.Item.ty (Go.localTy p)]] = []
    ∧ Go.format_file [[Go.Item.ty (Go.imported "foo" "Debug")]] ⟨none⟩
        = ["import \"foo\"", "", "foo.Debug"] := by
  refine ⟨rfl, rfl, rfl, ?_, rfl, by decide⟩
  intro h
  show [Go.importLine m] = ["import \"" ++ m ++ "\""]
  have hline : Go.importLine m = "import \"" ++ m ++ "\"" := by
    apply str_eq_of_data_eq
    show ("import " ++ String.mk (Go.quote_string m.data)).data
        = ("import \"" ++ m ++ "\"").data
    simp only [String.data_append]
    show ("import " : String).data ++ Go.quote_string m.data
        = (("import \"" : String).data ++ m.data) ++ ("\"" : String).data
    rw [Go.quote_string, Go.escape_flatMap_self m.data h]
    have h1 : ("import \"" : String).data = ("import " : String).data ++ [dqC] := by decide
    have h2 : ("\"" : String).data = [dqC] := by decide
    rw [h1, h2]
    simp [List.append_assoc]
  rw [hline]

/-- Witness for C9's escape-free conjunct at the module `"foo"`. -/
theorem c9_go_use_site_witness :
    (∀ c ∈ ("foo" : String).data, Go.escapeChar c = [c])
    ∧ Go.imports [[Go.Item.ty (Go.imported "foo" "Debug")]]
        = ["import \"" ++ "foo" ++ "\""] :=
  ⟨by decide, (c9_go_use_site "foo" "Debug" "X").2.2.2.1 (by decide)⟩

/-- C4: for every stream and configuration, the emitted import block is in
strictly ascending import-key order in both backends — `(package, name)`
pairs for Java, module paths for Go — whatever the document order of the
symbol references. -/
theorem c4_imports_sorted (s : Java.Stream) (config : Java.Config) (gs : Go.Stream) :
    ((Java.imports s config).1.getD []).Pairwise keyLt
    ∧ (Go.modulesOf (Go.customs gs)).Pairwise strLt := by
  constructor
  · simp only [Java.imports]
    split
    · simp
    · simpa using
        List.Pairwise.sublist (Java.importsLoop_sublist _ _) (Java.pairwise_modulesOf_java _)
  · exact Go.pairwise_modulesOf_go _

/-- C2 counterexample: an `Optional` nested inside the generic arguments of a
Java `Type` is skipped entirely by `Type::type_imports` (which recurses only
into `TypeEnum::Type` arguments), so the key `(b, B)` of the wrapped type —
reachable in the composite-type tree — is missing from the collected import
keys, contradicting the claim. -/
theorem c2_counterexample :
    ("b", "B") ∈ specJavaKeys
        (Java.JType.cls "a" "A" []
          (.cons (.opt (.cls "b" "B" [] .nil) (.cls "b" "B" [] .nil)) .nil))
    ∧ ("b", "B") ∉ Java.modulesOf (Java.customs
        [[Java.Item.ty (Java.JType.cls "a" "A" []
          (.cons (.opt (.cls "b" "B" [] .nil) (.cls "b" "B" [] .nil)) .nil))]]) := by
  decide

/-- C2 (amended): the collected key set contains, for Go, the key of every
transitively reachable symbol reference (the Go collector agrees with the
spec's full reachability); for Java it contains every key the traversal
reports — a `Type`'s own `(package, name)` and, recursively, the keys of its
generic arguments of the `Type` (class) variant only; arguments of any other
variant, including `Optional`-wrapped types, contribute nothing. -/
theorem c2_collect_amended (gs : Go.Stream) (g : Go.Any) (m : String)
    (s : Java.Stream) (t : Java.JType) (k : JKey)
    (pkg n : String) (path : List String) (args : Java.JArgs)
    (pkg2 n2 : String) (path2 : List String) (args2 : Java.JArgs)
    (hg : g ∈ Go.customs gs) (hm : m ∈ specGoKeys g)
    (ht : t ∈ Java.customs s) (hk : k ∈ Java.type_imports t)
    (harg : Java.JType.cls pkg2 n2 path2 args2 ∈ args.toList)
    (hk2 : k ∈ Java.type_imports (.cls pkg2 n2 path2 args2)) :
    m ∈ Go.modulesOf (Go.customs gs)
    ∧ specGoKeys g = Go.type_imports g
    ∧ k ∈ Java.modulesOf (Java.customs s)
    ∧ (pkg, n) ∈ Java.type_imports (Java.JType.cls pkg n path args)
    ∧ k ∈ Java.type_imports (Java.JType.cls pkg n path args) := by
  refine ⟨?_, specGoKeys_eq g, ?_, ?_, ?_⟩
  · exact (Go.mem_modulesOf_go _ m).mpr ⟨g, hg, (specGoKeys_eq g) ▸ hm⟩
  · exact (Java.mem_modulesOf_java _ k).mpr ⟨t, ht, hk⟩
  · simp [Java.type_imports]
  · simp only [Java.type_imports, List.mem_append]
    exact Or.inl (Java.mem_argImports k args pkg2 n2 path2 args2 harg hk2)

/-- C3 counterexample: U+0001 is a control character, yet both backends'
`quote_string` pass it through unescaped between the quotes, contradicting
the claim that every control character is escaped. -/
theorem c3_counterexample :
    Go.quote_string [Char.ofNat 1] = [dqC, Char.ofNat 1, dqC]
    ∧ Java.quote_string [Char.ofNat 1] = [dqC, Char.ofNat 1, dqC]
    ∧ (Char.ofNat 1).toNat < 32 := by
  decide

/-- C3 (amended): `quote_string` is total over Unicode scalar values and wraps
its output in double quotes; it escapes exactly tab, newline, carriage return,
the single quote, the double quote and the backslash (the Java backend
additionally U+0007 as `\b` and U+0014 as `\f`); every other character —
control characters included — passes through unchanged. -/
theorem c3_quote_amended (input : List Char) (c : Char)
    (hgo : c ∉ [tabC, lfC, crC, sqC, dqC, bsC])
    (hjava : c ∉ [tabC, belC, lfC, crC, c14C, sqC, dqC, bsC]) :
    (Go.quote_string input).head? = some dqC
    ∧ (Go.quote_string input).getLast? = some dqC
    ∧ (Java.quote_string input).head? = some dqC
    ∧ (Java.quote_string input).getLast? = some dqC
    ∧ Go.quote_string input = (dqC :: input.flatMap Go.escapeChar) ++ [dqC]
    ∧ Java.quote_string input = (dqC :: input.flatMap Java.escapeChar) ++ [dqC]
    ∧ Go.escapeChar c = [c]
    ∧ Java.escapeChar c = [c]
    ∧ Go.escapeChar tabC = [bsC, 't'] ∧ Go.escapeChar lfC = [bsC, 'n']
    ∧ Go.escapeChar crC = [bsC, 'r'] ∧ Go.escapeChar sqC = [bsC, sqC]
    ∧ Go.escapeChar dqC = [bsC, dqC] ∧ Go.escapeChar bsC = [bsC, bsC]
    ∧ Java.escapeChar belC = [bsC, 'b'] ∧ Java.escapeChar c14C = [bsC, 'f']
    ∧ Go.escapeChar belC = [belC] ∧ Go.escapeChar c14C = [c14C] := by
  simp only [List.mem_cons, List.mem_singleton, not_or] at hgo hjava
  obtain ⟨g1, g2, g3, g4, g5, g6⟩ := hgo
  obtain ⟨j1, j2, j3, j4, j5, j6, j7, j8⟩ := hjava
  refine ⟨?_, ?_, ?_, ?_, rfl, rfl, ?_, ?_,
    by decide, by decide, by decide, by decide, by decide, by decide,
    by decide, by decide, by decide, by decide⟩
  · simp [Go.quote_string]
  · simp only [Go.quote_string]
    exact List.getLast?_concat _
  · simp [Java.quote_string]
  · simp only [Java.quote_string]
    exact List.getLast?_concat _
  · simp [Go.escapeChar, g1, g2, g3, g4, g5, g6]
  · simp [Java.escapeChar, j1, j2, j3, j4, j5, j6, j7, j8]

/-- C7: a primitive formats its bare spelling at level 0 and its boxed
spelling at every positive level; `Type::format` formats each generic
argument at `level + 1`, so a primitive generic argument renders boxed at
every nesting depth. -/
theorem c7_primitive_boxing (config : Java.Config) (p b : String) (level : Nat)
    (h : 0 < level) :
    Java.format config (.prim p b) 0 = p
    ∧ Java.format config (.prim p b) level = b
    ∧ (∀ (pkg n : String) (path : List String) (args : Java.JArgs) (l : Nat),
        Java.format config (.cls pkg n path args) l
          = (if Java.qualified config pkg n then pkg ++ "." else "")
              ++ n ++ Java.pathText path ++ Java.argsText config args (l + 1))
    ∧ (∀ (pkg n : String) (l : Nat), ¬ Java.qualified config pkg n →
        Java.format config (.cls pkg n [] (.cons (.prim p b) .nil)) l
          = n ++ "<" ++ b ++ ">") := by
  refine ⟨by simp [Java.format], ?_, ?_, ?_⟩
  · simp only [Java.format]
    rw [if_pos h]
  · intro pkg n path args l
    exact Java.format_cls config pkg n path args l
  · intro pkg n l hq
    rw [Java.format_cls, if_neg hq]
    simp [Java.argsText, Java.formatArgs, Java.format, Java.pathText, String.append_assoc]

/-- C5: a symbol reference whose package is `java.lang` or the file's own
package never appears among the emitted import keys, and formats unqualified
(no package written) at every use site, under the configuration as mutated by
the import pass. -/
theorem c5_suppression (s : Java.Stream) (config : Java.Config) (p n : String)
    (path : List String) (args : Java.JArgs) (level : Nat)
    (h : p = "java.lang" ∨ config.package = some p) :
    (p, n) ∉ (Java.importsLoop config (Java.modulesOf (Java.customs s))).1
    ∧ ¬ Java.qualified (Java.imports s config).2 p n
    ∧ Java.format (Java.imports s config).2 (.cls p n path args) level
      = n ++ Java.pathText path ++ Java.argsText (Java.imports s config).2 args (level + 1) := by
  have hq : ¬ Java.qualified (Java.imports s config).2 p n := by
    rcases h with h | h
    · rintro ⟨h1, -, -⟩
      exact h1 h
    · rintro ⟨-, -, h3⟩
      exact h3 ((Java.imports_package s config) ▸ h)
  refine ⟨Java.importsLoop_not_mem _ config p n h, hq, ?_⟩
  rw [Java.format_cls, if_neg hq]
  simp

/-- C1: given two imported Java types with the same simple name and distinct
packages, neither `java.lang` nor the file's package, the import pass emits
exactly one import, for the package that sorts first; the winner is
registered in `imported` and formats unqualified, the loser formats fully
qualified; and a simple name, once registered, is never overwritten by the
rest of the pass. -/
theorem c1_collision (p1 p2 n : String) (fp : Option String)
    (h12 : strLt p1 p2) (h1 : p1 ≠ "java.lang") (h2 : p2 ≠ "java.lang")
    (hf1 : fp ≠ some p1) (hf2 : fp ≠ some p2) :
    Java.imports
        [[Java.Item.ty (.cls p1 n [] .nil), Java.Item.lit " ",
          Java.Item.ty (.cls p2 n [] .nil)]] ⟨fp, []⟩
      = (some [(p1, n)], ⟨fp, [(n, p1)]⟩)
    ∧ Java.format ⟨fp, [(n, p1)]⟩ (.cls p1 n [] .nil) 0 = n
    ∧ Java.format ⟨fp, [(n, p1)]⟩ (.cls p2 n [] .nil) 0 = p2 ++ "." ++ n
    ∧ (∀ (keys : List JKey) (c : Java.Config) (nm pk : String),
        lookupA c.imported nm = some pk →
        lookupA (Java.importsLoop c keys).2.imported nm = some pk) := by
  have hne : p1 ≠ p2 := strLt_ne h12
  have hnlt : ¬ keyLt (p2, n) (p1, n) := by
    rintro (h | ⟨he, -⟩)
    · exact strLt_asym h12 h
    · exact hne he.symm
  have hkne : ((p2, n) : JKey) ≠ (p1, n) := fun he => hne (congrArg Prod.fst he).symm
  have hmod : Java.modulesOf (Java.customs
      [[Java.Item.ty (.cls p1 n [] .nil), Java.Item.lit " ",
        Java.Item.ty (.cls p2 n [] .nil)]]) = [(p1, n), (p2, n)] := by
    simp [Java.customs, Java.modulesOf, Java.type_imports, Java.argImports,
      insertSorted, hnlt, hkne]
  have hloop : Java.importsLoop ⟨fp, []⟩ [(p1, n), (p2, n)] = ([(p1, n)], ⟨fp, [(n, p1)]⟩) := by
    simp [Java.importsLoop, lookupA, insertA, h1, hf1]
  have hq1 : ¬ Java.qualified ⟨fp, [(n, p1)]⟩ p1 n := by
    rintro ⟨-, hmid, -⟩
    exact hmid (by simp [lookupA])
  have hq2 : Java.qualified ⟨fp, [(n, p1)]⟩ p2 n := by
    refine ⟨h2, ?_, hf2⟩
    simp only [lookupA, if_pos rfl]
    intro he
    exact hne (Option.some.inj he)
  refine ⟨?_, ?_, ?_, ?_⟩
  · simp only [Java.imports, hmod, hloop]
    simp
  · rw [Java.format_cls, if_neg hq1]
    simp [Java.pathText, Java.argsText]
  · rw [Java.format_cls, if_pos hq2]
    simp [Java.pathText, Java.argsText, String.append_assoc]
  · exact fun keys c nm pk hl => Java.importsLoop_lookup_mono keys c nm pk hl

/-- C6: rendering is deterministic — equal fresh configurations give equal
output — and order-independent: permuting the traversal order of the
composite-type nodes changes neither the collected module set, nor the
emitted imports and final configuration, nor any use-site qualification
decision, in either backend. -/
theorem c6_determinism (p : Option String) (s : Java.Stream) (gs : Go.Stream)
    (l₁ l₂ : List Java.JType) (g₁ g₂ : List Go.Any)
    (hj : l₁.Perm l₂) (hg : g₁.Perm g₂) :
    Java.write_file s ⟨p, []⟩ = Java.write_file s ⟨p, []⟩
    ∧ Go.format_file gs ⟨p⟩ = Go.format_file gs ⟨p⟩
    ∧ Java.modulesOf l₁ = Java.modulesOf l₂
    ∧ Java.importsLoop ⟨p, []⟩ (Java.modulesOf l₁)
        = Java.importsLoop ⟨p, []⟩ (Java.modulesOf l₂)
    ∧ (∀ pk nm, Java.qualified (Java.importsLoop ⟨p, []⟩ (Java.modulesOf l₁)).2 pk nm
        ↔ Java.qualified (Java.importsLoop ⟨p, []⟩ (Java.modulesOf l₂)).2 pk nm)
    ∧ Go.modulesOf g₁ = Go.modulesOf g₂ := by
  have hjm : Java.modulesOf l₁ = Java.modulesOf l₂ := by
    apply sorted_eq_of_mem_iff keyLt (fun a b h => keyLt_asym h) _ _
      (Java.pairwise_modulesOf_java l₁) (Java.pairwise_modulesOf_java l₂)
    intro x
    rw [Java.mem_modulesOf_java, Java.mem_modulesOf_java]
    constructor
    · rintro ⟨t, ht, hx⟩
      exact ⟨t, hj.subset ht, hx⟩
    · rintro ⟨t, ht, hx⟩
      exact ⟨t, hj.symm.subset ht, hx⟩
  have hgm : Go.modulesOf g₁ = Go.modulesOf g₂ := by
    apply sorted_eq_of_mem_iff strLt (fun a b h => strLt_asym h) _ _
      (Go.pairwise_modulesOf_go g₁) (Go.pairwise_modulesOf_go g₂)
    intro x
    rw [Go.mem_modulesOf_go, Go.mem_modulesOf_go]
    constructor
    · rintro ⟨t, ht, hx⟩
      exact ⟨t, hg.subset ht, hx⟩
    · rintro ⟨t, ht, hx⟩
      exact ⟨t, hg.symm.subset ht, hx⟩
  exact ⟨rfl, rfl, hjm, by rw [hjm], fun pk nm => by rw [hjm], hgm⟩

/-- C8: in both backends the rendered file is the package section, the import
section and the body, separated by single blank lines, with every empty
section omitted together with its separator: the output never begins with a
blank line and never contains two consecutive blank lines (given a body with
that discipline), and when all three sections are non-empty it is exactly
package line, blank, imports, blank, body. -/
theorem c8_file_layout (s : Java.Stream) (config : Java.Config)
    (gs : Go.Stream) (gconfig : Go.Config)
    (hj0 : (Java.body (Java.imports s config).2 s).head? ≠ some "")
    (hj : noTwoBlank (Java.body (Java.imports s config).2 s))
    (hg0 : (Go.body gs).head? ≠ some "")
    (hg : noTwoBlank (Go.body gs)) :
    (Java.write_file s config).head? ≠ some ""
    ∧ noTwoBlank (Java.write_file s config)
    ∧ (∀ P, config.package = some P →
        (Java.imports s config).1.getD [] ≠ [] →
        Java.body (Java.imports s config).2 s ≠ [] →
        Java.write_file s config
          = ["package " ++ P ++ ";"] ++ [""]
              ++ ((Java.imports s config).1.getD []).map Java.importLine ++ [""]
              ++ Java.body (Java.imports s config).2 s)
    ∧ (Go.format_file gs gconfig).head? ≠ some ""
    ∧ noTwoBlank (Go.format_file gs gconfig)
    ∧ (∀ P, gconfig.package = some P →
        Go.imports gs ≠ [] → Go.body gs ≠ [] →
        Go.format_file gs gconfig
          = ["package " ++ P] ++ [""] ++ Go.imports gs ++ [""] ++ Go.body gs) := by
  have hJ := joinSections3_props (Java.packageSection config)
    (((Java.imports s config).1.getD []).map Java.importLine)
    (Java.body (Java.imports s config).2 s)
    (Java.packageSection_all_ne_java config)
    (by
      intro x hx
      obtain ⟨k, -, rfl⟩ := List.mem_map.mp hx
      exact Java.importLine_ne_java k)
    hj0 hj
  have hwf : Java.write_file s config
      = joinSections [Java.packageSection config,
          ((Java.imports s config).1.getD []).map Java.importLine,
          Java.body (Java.imports s config).2 s] := rfl
  have hG := joinSections3_props (Go.packageSection gconfig) (Go.imports gs) (Go.body gs)
    (Go.packageSection_all_ne_go gconfig)
    (by
      intro x hx
      obtain ⟨m, -, rfl⟩ := List.mem_map.mp hx
      exact Go.importLine_ne_go m)
    hg0 hg
  have hgf : Go.format_file gs gconfig
      = joinSections [Go.packageSection gconfig, Go.imports gs, Go.body gs] := rfl
  refine ⟨hwf ▸ hJ.1, hwf ▸ hJ.2.1, ?_, hgf ▸ hG.1, hgf ▸ hG.2.1, ?_⟩
  · intro P hP himp hbody
    have hPs : Java.packageSection config = ["package " ++ P ++ ";"] := by
      simp [Java.packageSection, hP]
    rw [hwf, hJ.2.2 (by rw [hPs]; simp) (by simpa using himp) hbody, hPs]
  · intro P hP himp hbody
    have hPs : Go.packageSection gconfig = ["package " ++ P] := by
      simp [Go.packageSection, hP]
    rw [hgf, hG.2.2 (by rw [hPs]; simp) himp hbody, hPs]

/-! ### Witnesses -/

/-- Witness for C1 at `p1 = "a"`, `p2 = "b"`, `n = "N"`, no file package. -/
theorem c1_collision_witness :
    (strLt "a" "b" ∧ "a" ≠ "java.lang" ∧ "b" ≠ "java.lang"
      ∧ (none : Option String) ≠ some "a" ∧ (none : Option String) ≠ some "b")
    ∧ (Java.imports
          [[Java.Item.ty (.cls "a" "N" [] .nil), Java.Item.lit " ",
            Java.Item.ty (.cls "b" "N" [] .nil)]] ⟨none, []⟩
        = (some [("a", "N")], ⟨none, [("N", "a")]⟩)
      ∧ Java.format ⟨none, [("N", "a")]⟩ (.cls "a" "N" [] .nil) 0 = "N"
      ∧ Java.format ⟨none, [("N", "a")]⟩ (.cls "b" "N" [] .nil) 0 = "b" ++ "." ++ "N"
      ∧ (∀ (keys : List JKey) (c : Java.Config) (nm pk : String),
          lookupA c.imported nm = some pk →
          lookupA (Java.importsLoop c keys).2.imported nm = some pk)) :=
  ⟨⟨by decide, by decide, by decide, by decide, by decide⟩,
    c1_collision "a" "b" "N" none (by decide) (by decide) (by decide) (by decide) (by decide)⟩

/-- Witness for C2 (amended) at a Go map stream and a Java class whose
generic argument is itself a class. -/
theorem c2_collect_amended_witness :
    ((Go.Any.map (Go.imported "m1" "A") Go.Any.interfaceTy)
        ∈ Go.customs [[Go.Item.ty (Go.Any.map (Go.imported "m1" "A") Go.Any.interfaceTy)]]
      ∧ "m1" ∈ specGoKeys (Go.Any.map (Go.imported "m1" "A") Go.Any.interfaceTy)
      ∧ (Java.JType.cls "a" "A" [] (.cons (.cls "b" "B" [] .nil) .nil))
          ∈ Java.customs [[Java.Item.ty (.cls "a" "A" [] (.cons (.cls "b" "B" [] .nil) .nil))]]
      ∧ ("b", "B") ∈ Java.type_imports (.cls "a" "A" [] (.cons (.cls "b" "B" [] .nil) .nil))
      ∧ Java.JType.cls "b" "B" [] .nil
          ∈ (Java.JArgs.cons (.cls "b" "B" [] .nil) .nil).toList
      ∧ ("b", "B") ∈ Java.type_imports (.cls "b" "B" [] .nil))
    ∧ ("m1" ∈ Go.modulesOf (Go.customs
          [[Go.Item.ty (Go.Any.map (Go.imported "m1" "A") Go.Any.interfaceTy)]])
      ∧ specGoKeys (Go.Any.map (Go.imported "m1" "A") Go.Any.interfaceTy)
          = Go.type_imports (Go.Any.map (Go.imported "m1" "A") Go.Any.interfaceTy)
      ∧ ("b", "B") ∈ Java.modulesOf (Java.customs
          [[Java.Item.ty (.cls "a" "A" [] (.cons (.cls "b" "B" [] .nil) .nil))]])
      ∧ ("a", "A") ∈ Java.type_imports
          (Java.JType.cls "a" "A" [] (.cons (.cls "b" "B" [] .nil) .nil))
      ∧ ("b", "B") ∈ Java.type_imports
          (Java.JType.cls "a" "A" [] (.cons (.cls "b" "B" [] .nil) .nil))) :=
  ⟨⟨by decide, by decide, by decide, by decide, by decide, by decide⟩,
    c2_collect_amended
      [[Go.Item.ty (Go.Any.map (Go.imported "m1" "A") Go.Any.interfaceTy)]]
      (Go.Any.map (Go.imported "m1" "A") Go.Any.interfaceTy) "m1"
      [[Java.Item.ty (.cls "a" "A" [] (.cons (.cls "b" "B" [] .nil) .nil))]]
      (.cls "a" "A" [] (.cons (.cls "b" "B" [] .nil) .nil)) ("b", "B")
      "a" "A" [] (.cons (.cls "b" "B" [] .nil) .nil) "b" "B" [] .nil
      (by decide) (by decide) (by decide) (by decide) (by decide) (by decide)⟩

/-- Witness for C3 (amended) at the input `"B"` and the pass-through
character `"A"`. -/
theorem c3_quote_amended_witness :
    (Char.ofNat 65 ∉ [tabC, lfC, crC, sqC, dqC, bsC]
      ∧ Char.ofNat 65 ∉ [tabC, belC, lfC, crC, c14C, sqC, dqC, bsC])
    ∧ ((Go.quote_string [Char.ofNat 66]).head? = some dqC
      ∧ (Go.quote_string [Char.ofNat 66]).getLast? = some dqC
      ∧ (Java.quote_string [Char.ofNat 66]).head? = some dqC
      ∧ (Java.quote_string [Char.ofNat 66]).getLast? = some dqC
      ∧ Go.quote_string [Char.ofNat 66]
          = (dqC :: [Char.ofNat 66].flatMap Go.escapeChar) ++ [dqC]
      ∧ Java.quote_string [Char.ofNat 66]
          = (dqC :: [Char.ofNat 66].flatMap Java.escapeChar) ++ [dqC]
      ∧ Go.escapeChar (Char.ofNat 65) = [Char.ofNat 65]
      ∧ Java.escapeChar (Char.ofNat 65) = [Char.ofNat 65]
      ∧ Go.escapeChar tabC = [bsC, 't'] ∧ Go.escapeChar lfC = [bsC, 'n']
      ∧ Go.escapeChar crC = [bsC, 'r'] ∧ Go.escapeChar sqC = [bsC, sqC]
      ∧ Go.escapeChar dqC = [bsC, dqC] ∧ Go.escapeChar bsC = [bsC, bsC]
      ∧ Java.escapeChar belC = [bsC, 'b'] ∧ Java.escapeChar c14C = [bsC, 'f']
      ∧ Go.escapeChar belC = [belC] ∧ Go.escapeChar c14C = [c14C]) :=
  ⟨⟨by decide, by decide⟩,
    c3_quote_amended [Char.ofNat 66] (Char.ofNat 65) (by decide) (by decide)⟩

/-- Witness for C5 at a `java.lang` reference with no file package. -/
theorem c5_suppression_witness :
    (("java.lang" : String) = "java.lang"
        ∨ (Java.Config.mk none []).package = some "java.lang")
    ∧ (("java.lang", "Integer")
        ∉ (Java.importsLoop ⟨none, []⟩ (Java.modulesOf (Java.customs
            [[Java.Item.ty (.cls "java.lang" "Integer" [] .nil)]]))).1
      ∧ ¬ Java.qualified
          (Java.imports [[Java.Item.ty (.cls "java.lang" "Integer" [] .nil)]] ⟨none, []⟩).2
          "java.lang" "Integer"
      ∧ Java.format
          (Java.imports [[Java.Item.ty (.cls "java.lang" "Integer" [] .nil)]] ⟨none, []⟩).2
          (.cls "java.lang" "Integer" [] .nil) 0
        = "Integer" ++ Java.pathText []
            ++ Java.argsText
              (Java.imports [[Java.Item.ty (.cls "java.lang" "Integer" [] .nil)]] ⟨none, []⟩).2
              .nil (0 + 1)) :=
  ⟨Or.inl rfl,
    c5_suppression [[Java.Item.ty (.cls "java.lang" "Integer" [] .nil)]] ⟨none, []⟩
      "java.lang" "Integer" [] .nil 0 (Or.inl rfl)⟩

/-- Witness for C6 at two two-element node lists in swapped order. -/
theorem c6_determinism_witness :
    (([Java.JType.cls "x" "X" [] .nil, Java.JType.cls "y" "Y" [] .nil].Perm
        [Java.JType.cls "y" "Y" [] .nil, Java.JType.cls "x" "X" [] .nil])
      ∧ ([Go.imported "u" "U", Go.imported "v" "V"].Perm
          [Go.imported "v" "V", Go.imported "u" "U"]))
    ∧ (Java.write_file [] ⟨none, []⟩ = Java.write_file [] ⟨none, []⟩
      ∧ Go.format_file [] ⟨none⟩ = Go.format_file [] ⟨none⟩
      ∧ Java.modulesOf [Java.JType.cls "x" "X" [] .nil, Java.JType.cls "y" "Y" [] .nil]
          = Java.modulesOf [Java.JType.cls "y" "Y" [] .nil, Java.JType.cls "x" "X" [] .nil]
      ∧ Java.importsLoop ⟨none, []⟩
            (Java.modulesOf [Java.JType.cls "x" "X" [] .nil, Java.JType.cls "y" "Y" [] .nil])
          = Java.importsLoop ⟨none, []⟩
            (Java.modulesOf [Java.JType.cls "y" "Y" [] .nil, Java.JType.cls "x" "X" [] .nil])
      ∧ (∀ pk nm, Java.qualified (Java.importsLoop ⟨none, []⟩
            (Java.modulesOf [Java.JType.cls "x" "X" [] .nil,
              Java.JType.cls "y" "Y" [] .nil])).2 pk nm
          ↔ Java.qualified (Java.importsLoop ⟨none, []⟩
            (Java.modulesOf [Java.JType.cls "y" "Y" [] .nil,
              Java.JType.cls "x" "X" [] .nil])).2 pk nm)
      ∧ Go.modulesOf [Go.imported "u" "U", Go.imported "v" "V"]
          = Go.modulesOf [Go.imported "v" "V", Go.imported "u" "U"]) :=
  ⟨⟨List.Perm.swap _ _ _, List.Perm.swap _ _ _⟩,
    c6_determinism none [] [] _ _ _ _ (List.Perm.swap _ _ _) (List.Perm.swap _ _ _)⟩

/-- Witness for C7 at `int` / `Integer` and level 1. -/
theorem c7_primitive_boxing_witness :
    0 < 1
    ∧ (Java.format ⟨none, []⟩ (.prim "int" "Integer") 0 = "int"
      ∧ Java.format ⟨none, []⟩ (.prim "int" "Integer") 1 = "Integer"
      ∧ (∀ (pkg n : String) (path : List String) (args : Java.JArgs) (l : Nat),
          Java.format ⟨none, []⟩ (.cls pkg n path args) l
            = (if Java.qualified ⟨none, []⟩ pkg n then pkg ++ "." else "")
                ++ n ++ Java.pathText path ++ Java.argsText ⟨none, []⟩ args (l + 1))
      ∧ (∀ (pkg n : String) (l : Nat), ¬ Java.qualified ⟨none, []⟩ pkg n →
          Java.format ⟨none, []⟩ (.cls pkg n [] (.cons (.prim "int" "Integer") .nil)) l
            = n ++ "<" ++ "Integer" ++ ">")) :=
  ⟨Nat.one_pos, c7_primitive_boxing ⟨none, []⟩ "int" "Integer" 1 Nat.one_pos⟩

/-- Witness for C8 at one-line literal bodies with a package configured. -/
theorem c8_file_layout_witness :
    ((Java.body (Java.imports [[Java.Item.lit "class A"]] ⟨some "com.x", []⟩).2
        [[Java.Item.lit "class A"]]).head? ≠ some ""
      ∧ noTwoBlank (Java.body (Java.imports [[Java.Item.lit "class A"]] ⟨some "com.x", []⟩).2
          [[Java.Item.lit "class A"]])
      ∧ (Go.body [[Go.Item.lit "func f()"]]).head? ≠ some ""
      ∧ noTwoBlank (Go.body [[Go.Item.lit "func f()"]]))
    ∧ ((Java.write_file [[Java.Item.lit "class A"]] ⟨some "com.x", []⟩).head? ≠ some ""
      ∧ noTwoBlank (Java.write_file [[Java.Item.lit "class A"]] ⟨some "com.x", []⟩)
      ∧ (∀ P, (Java.Config.mk (some "com.x") []).package = some P →
          (Java.imports [[Java.Item.lit "class A"]] ⟨some "com.x", []⟩).1.getD [] ≠ [] →
          Java.body (Java.imports [[Java.Item.lit "class A"]] ⟨some "com.x", []⟩).2
              [[Java.Item.lit "class A"]] ≠ [] →
          Java.write_file [[Java.Item.lit "class A"]] ⟨some "com.x", []⟩
            = ["package " ++ P ++ ";"] ++ [""]
                ++ ((Java.imports [[Java.Item.lit "class A"]] ⟨some "com.x", []⟩).1.getD
                    []).map Java.importLine ++ [""]
                ++ Java.body (Java.imports [[Java.Item.lit "class A"]] ⟨some "com.x", []⟩).2
                    [[Java.Item.lit "class A"]])
      ∧ (Go.format_file [[Go.Item.lit "func f()"]] ⟨some "main"⟩).head? ≠ some ""
      ∧ noTwoBlank (Go.format_file [[Go.Item.lit "func f()"]] ⟨some "main"⟩)
      ∧ (∀ P, (Go.Config.mk (some "main")).package = some P →
          Go.imports [[Go.Item.lit "func f()"]] ≠ [] →
          Go.body [[Go.Item.lit "func f()"]] ≠ [] →
          Go.format_file [[Go.Item.lit "func f()"]] ⟨some "main"⟩
            = ["package " ++ P] ++ [""] ++ Go.imports [[Go.Item.lit "func f()"]] ++ [""]
                ++ Go.body [[Go.Item.lit "func f()"]])) :=
  ⟨⟨by decide,
    by
      show noTwoBlank ["class A"]
      simp [noTwoBlank],
    by decide,
    by
      show noTwoBlank ["func f()"]
      simp [noTwoBlank]⟩,
    c8_file_layout [[Java.Item.lit "class A"]] ⟨some "com.x", []⟩
      [[Go.Item.lit "func f()"]] ⟨some "main"⟩
      (by decide)
      (by
        show noTwoBlank ["class A"]
        simp [noTwoBlank])
      (by decide)
      (by
        show noTwoBlank ["func f()"]
        simp [noTwoBlank])⟩

end Genco
